import Mathlib

/-!
Verification of the Student Management repository (src/main.py).

The program is a Tkinter GUI over a SQLite table
  students(id INTEGER PRIMARY KEY AUTOINCREMENT,
           first_name TEXT NOT NULL, last_name TEXT NOT NULL,
           course TEXT NOT NULL,
           grade REAL NOT NULL CHECK(grade >= 0 AND grade <= 100)).

We shallowly embed the two layers of the program:
* `Database` with `add_student`, `update_student`, `delete_student`,
  `get_all_students`, `search_students`, `export_to_csv` — modelling the
  SQLite-backed store, including the semantics SQLite gives the SQL the
  code issues (the CHECK constraint on INSERT and on UPDATE of matching
  rows, NOT NULL accepting empty strings, AUTOINCREMENT ids, and the
  case-insensitive LIKE operator with the % and _ wildcards).
* `app_add_student`, `app_update_student`, `app_delete_student` —
  modelling the button handlers of `StudentManagementApp`, including
  their validation and their exception handling (`add_student` and
  `update_student` catch only ValueError; `delete_student` catches
  IndexError and shows a warning).

Numeric grades are modelled as `Rat` (Python floats at the grades and
comparisons involved behave like exact rationals); a failed
`float(entry)` parse is modelled by an `Option Rat` input being `none`.
-/

namespace StudentMgmt

/-- A row of the `students` table. -/
structure Student where
  id : Nat
  first_name : String
  last_name : String
  course : String
  grade : Rat
deriving DecidableEq, Repr

/-- The persistent store: the rows of the `students` table in id order,
together with the AUTOINCREMENT counter for the next fresh id. -/
structure Database where
  rows : List Student
  nextId : Nat
deriving DecidableEq, Repr

/-- A constraint violation raised by SQLite (sqlite3.IntegrityError). -/
inductive DbError where
  | constraintViolation
deriving DecidableEq, Repr

/-- The freshly created database: empty table, first id is 1. -/
def Database.empty : Database := ⟨[], 1⟩

/-- The CHECK constraint of the schema: `grade >= 0 AND grade <= 100`. -/
def gradeOK (g : Rat) : Bool := decide (0 ≤ g) && decide (g ≤ 100)

/-- `Database.add_student`: `INSERT INTO students (first_name, last_name,
course, grade) VALUES (?, ?, ?, ?)`.  SQLite enforces the CHECK constraint
on the grade; NOT NULL is satisfied by every string (including the empty
string), so no check on the text fields happens here.  On success the row
gets the AUTOINCREMENT id and is appended. -/
def Database.add_student (db : Database) (f l c : String) (g : Rat) :
    Except DbError (Database × Nat) :=
  if gradeOK g then
    .ok (⟨db.rows ++ [⟨db.nextId, f, l, c, g⟩], db.nextId + 1⟩, db.nextId)
  else
    .error .constraintViolation

/-- `Database.update_student`: `UPDATE students SET first_name = ?,
last_name = ?, course = ?, grade = ? WHERE id = ?`.  If no row matches the
id the statement touches nothing and succeeds; if a row matches, SQLite
evaluates the CHECK constraint on the new values and aborts with an
IntegrityError when the grade is out of range, leaving the table
unchanged. -/
def Database.update_student (db : Database) (sid : Nat) (f l c : String)
    (g : Rat) : Except DbError Database :=
  if db.rows.any (fun r => r.id == sid) then
    if gradeOK g then
      .ok ⟨db.rows.map (fun r => if r.id == sid then ⟨r.id, f, l, c, g⟩ else r),
           db.nextId⟩
    else
      .error .constraintViolation
  else
    .ok db

/-- `Database.delete_student`: `DELETE FROM students WHERE id = ?`. -/
def Database.delete_student (db : Database) (sid : Nat) : Database :=
  ⟨db.rows.filter (fun r => r.id != sid), db.nextId⟩

/-- `Database.get_all_students`: `SELECT * FROM students`. -/
def Database.get_all_students (db : Database) : List Student := db.rows

/-- ASCII lower-casing, as used by SQLite's LIKE: only A–Z fold. -/
def asciiLower (c : Char) : Char :=
  if 'A' ≤ c ∧ c ≤ 'Z' then Char.ofNat (c.toNat + 32) else c

/-- SQLite `LIKE` pattern matching: `%` matches any sequence of
characters, `_` matches any single character, and every other pattern
character matches case-insensitively (ASCII folding). -/
def likeMatch : List Char → List Char → Bool
  | [], s => s.isEmpty
  | p :: ps, s =>
    if p = '%' then s.tails.any (fun t => likeMatch ps t)
    else
      match s with
      | [] => false
      | c :: cs => (p == '_' || asciiLower p == asciiLower c) && likeMatch ps cs

/-- `Database.search_students`: `SELECT * FROM students WHERE first_name
LIKE ? OR last_name LIKE ?` with both parameters bound to
`'%' + search_text + '%'`. -/
def Database.search_students (db : Database) (s : String) : List Student :=
  db.rows.filter (fun r =>
    likeMatch ('%' :: s.data ++ ['%']) r.first_name.data ||
    likeMatch ('%' :: s.data ++ ['%']) r.last_name.data)

/-- Case-insensitive (ASCII) list equality test on an initial segment:
`startsWithCI s t` is true when `t` begins with `s` up to ASCII case. -/
def startsWithCI : List Char → List Char → Bool
  | [], _ => true
  | _ :: _, [] => false
  | a :: as, b :: bs => (asciiLower a == asciiLower b) && startsWithCI as bs

/-- Case-insensitive (ASCII) substring containment: some suffix of `t`
begins with `s` up to ASCII case. -/
def containsCI (s t : List Char) : Bool := t.tails.any (fun u => startsWithCI s u)

/-- Literal (case-sensitive) list equality test on an initial segment. -/
def startsWithLit : List Char → List Char → Bool
  | [], _ => true
  | _ :: _, [] => false
  | a :: as, b :: bs => (a == b) && startsWithLit as bs

/-- Literal (case-sensitive) substring containment, the reading of
"contains s as a substring" used by the specification's search claim. -/
def containsLit (s t : String) : Bool :=
  t.data.tails.any (fun u => startsWithLit s.data u)

/-! ## The presentation layer (button handlers of StudentManagementApp)

Each handler is modelled as a function from the store and the handler's
inputs (the entry-field contents, and the Treeview selection for Update
and Delete) to the new store and the user-visible outcome.  The grade
entry is an `Option Rat`: `none` models text on which Python's
`float(...)` raises ValueError. -/

/-- What the user sees after a button handler runs. -/
inductive Outcome where
  /-- A `messagebox.showinfo("Success", ...)` dialog. -/
  | successDialog
  /-- A `messagebox.showerror("Error", ...)` dialog. -/
  | errorDialog
  /-- A `messagebox.showwarning("Warning", ...)` dialog. -/
  | warningDialog
  /-- An exception that no handler catches: no dialog is shown (Tkinter
  prints a traceback to stderr and the callback aborts). -/
  | uncaughtException
deriving DecidableEq, Repr

/-- `StudentManagementApp.add_student`: reads the entries, raises
ValueError if the grade does not parse or validation fails (caught, error
dialog); otherwise inserts through the store and shows a success dialog.
A constraint violation out of the store would not be a ValueError and
would escape, but validation makes that branch unreachable. -/
def app_add_student (db : Database) (f l c : String) (g : Option Rat) :
    Database × Outcome :=
  match g with
  | none => (db, .errorDialog)
  | some q =>
    if f == "" || l == "" || c == "" || !gradeOK q then
      (db, .errorDialog)
    else
      match db.add_student f l c q with
      | .ok (db2, _) => (db2, .successDialog)
      | .error _ => (db, .uncaughtException)

/-- `StudentManagementApp.update_student`: `self.tree.selection()[0]` is
evaluated first; with no selection it raises IndexError, which the
handler's `except ValueError` clause does NOT catch, so no dialog appears
and nothing is mutated.  With a selection, a grade parse failure or a
validation failure raises ValueError (caught, error dialog); otherwise
the store is updated and a success dialog shown. -/
def app_update_student (db : Database) (sel : Option Nat) (f l c : String)
    (g : Option Rat) : Database × Outcome :=
  match sel with
  | none => (db, .uncaughtException)
  | some sid =>
    match g with
    | none => (db, .errorDialog)
    | some q =>
      if f == "" || l == "" || c == "" || !gradeOK q then
        (db, .errorDialog)
      else
        match db.update_student sid f l c q with
        | .ok db2 => (db2, .successDialog)
        | .error _ => (db, .uncaughtException)

/-- `StudentManagementApp.delete_student`: with no selection the
IndexError from `self.tree.selection()[0]` is caught and a warning dialog
shown; otherwise the selected id is deleted and a success dialog shown. -/
def app_delete_student (db : Database) (sel : Option Nat) :
    Database × Outcome :=
  match sel with
  | none => (db, .warningDialog)
  | some sid => (db.delete_student sid, .successDialog)

/-- `StudentManagementApp.search_students` never mutates the store: it
only re-queries and redraws the list. -/
def app_search_students (db : Database) (s : String) :
    Database × List Student :=
  (db, db.search_students s)

/-- The store states reachable by the application's operations, starting
from the freshly created database.  Search and export do not mutate the
store, so they are included as identity steps. -/
inductive Reachable : Database → Prop where
  | init : Reachable Database.empty
  | add (db : Database) (f l c : String) (g : Option Rat) :
      Reachable db → Reachable (app_add_student db f l c g).1
  | update (db : Database) (sel : Option Nat) (f l c : String)
      (g : Option Rat) :
      Reachable db → Reachable (app_update_student db sel f l c g).1
  | delete (db : Database) (sel : Option Nat) :
      Reachable db → Reachable (app_delete_student db sel).1
  | search (db : Database) (s : String) :
      Reachable db → Reachable (app_search_students db s).1
  | exportOp (db : Database) : Reachable db → Reachable db

/-- A record satisfying every field constraint of the data model. -/
def ValidRecord (r : Student) : Prop :=
  0 ≤ r.grade ∧ r.grade ≤ 100 ∧
  r.first_name ≠ "" ∧ r.last_name ≠ "" ∧ r.course ≠ ""

instance : DecidablePred ValidRecord := fun r => by
  unfold ValidRecord; infer_instance

/-- The store invariant: every row is valid, every id is below the
AUTOINCREMENT counter, and ids are pairwise distinct. -/
def Inv (db : Database) : Prop :=
  (∀ r ∈ db.rows, ValidRecord r ∧ r.id < db.nextId) ∧
  (db.rows.map Student.id).Nodup

instance : DecidablePred Inv := fun db => by
  unfold Inv; infer_instance

/-! ## CSV export (`Database.export_to_csv`)

`csv.writer` with the default dialect: fields are separated by `,`, rows
are terminated by `\r\n` (the file is opened with `newline=''`, so the
terminator reaches the file unchanged), and a field is quoted exactly
when it contains the delimiter, the quote character, or a character of
the row terminator (QUOTE_MINIMAL); quote characters inside a quoted
field are doubled. -/

/-- Double every quote character (the escaping inside a quoted field). -/
def csvQuoteEsc : List Char → List Char
  | [] => []
  | c :: cs => if c = '"' then '"' :: '"' :: csvQuoteEsc cs else c :: csvQuoteEsc cs

/-- QUOTE_MINIMAL: quote when the field contains `,`, `"`, CR or LF. -/
def needsQuote (s : String) : Bool :=
  s.data.any (fun c => c == ',' || c == '"' || c == '\r' || c == '\n')

/-- Serialize one field. -/
def csvField (s : String) : List Char :=
  if needsQuote s then '"' :: (csvQuoteEsc s.data ++ ['"']) else s.data

/-- The comma-joined fields of one row, without the terminator. -/
def csvRowBody : List String → List Char
  | [] => []
  | [f] => csvField f
  | f :: fs => csvField f ++ ',' :: csvRowBody fs

/-- One serialized row, `\r\n`-terminated. -/
def csvRowChars (fs : List String) : List Char :=
  csvRowBody fs ++ ['\r', '\n']

/-- The full serialized output for a list of rows. -/
def csvWrite (rows : List (List String)) : String :=
  ⟨(rows.map csvRowChars).flatten⟩

/-- The grade column as it is written to the file.  SQLite stores the
grade as REAL and `csv.writer` renders it with Python's `str`; we model
that rendering by a fixed injective textual form (for the integral grades
actually producible it agrees with `str(float)`, e.g. `85.0`). -/
def gradeRepr (q : Rat) : String :=
  if q.den = 1 then toString q.num ++ ".0" else toString q

/-- The five CSV fields of one stored record, in column order. -/
def recordFields (r : Student) : List String :=
  [toString r.id, r.first_name, r.last_name, r.course, gradeRepr r.grade]

/-- The header row written first. -/
def csvHeader : List String := ["ID", "First Name", "Last Name", "Course", "Grade"]

/-- `Database.export_to_csv`: `SELECT * FROM students`, then write the
header row followed by one CSV row per record. -/
def Database.export_to_csv (db : Database) : String :=
  csvWrite (csvHeader :: db.rows.map recordFields)

/-- The number of lines of the output, counting LF characters (every
line the writer emits is `\r\n`-terminated). -/
def lineCount (s : String) : Nat := s.data.count '\n'

/-! A standard CSV reader, used to state the round-trip property: a
character-level state machine handling quoting, doubled quotes, and
`\r\n` row terminators. -/

/-- Reader mode: outside quotes, inside quotes, or just after a quote
character seen inside quotes. -/
inductive CsvMode where
  | base
  | quoted
  | postq
deriving DecidableEq, Repr

/-- Reader state: finished rows, finished fields of the current row, the
characters of the current field, and the mode. -/
structure CsvState where
  rows : List (List String)
  fields : List String
  cur : List Char
  mode : CsvMode
deriving DecidableEq, Repr

/-- One character of CSV reading. -/
def csvStep (st : CsvState) (c : Char) : CsvState :=
  match st.mode with
  | .base =>
    if c = '"' ∧ st.cur = [] then { st with mode := .quoted }
    else if c = ',' then { st with fields := st.fields ++ [⟨st.cur⟩], cur := [] }
    else if c = '\n' then
      { st with rows := st.rows ++ [st.fields ++ [⟨st.cur⟩]], fields := [], cur := [] }
    else if c = '\r' then st
    else { st with cur := st.cur ++ [c] }
  | .quoted =>
    if c = '"' then { st with mode := .postq }
    else { st with cur := st.cur ++ [c] }
  | .postq =>
    if c = '"' then { st with cur := st.cur ++ ['"'], mode := .quoted }
    else if c = ',' then
      { st with fields := st.fields ++ [⟨st.cur⟩], cur := [], mode := .base }
    else if c = '\n' then
      { st with rows := st.rows ++ [st.fields ++ [⟨st.cur⟩]], fields := [], cur := [],
                mode := .base }
    else { st with mode := .base }

/-- Parse a CSV document into its rows of fields. -/
def csvParse (s : String) : List (List String) :=
  let st := s.data.foldl csvStep ⟨[], [], [], .base⟩
  if st.fields = [] ∧ st.cur = [] ∧ st.mode = .base then st.rows
  else st.rows ++ [st.fields ++ [⟨st.cur⟩]]

/-! ## Concrete tables used to settle the claims -/

/-- Seed record "Anna Lee" from the specification's search example. -/
def annaLee : Student := ⟨1, "Anna", "Lee", "Math", 90⟩

/-- Seed record "Ivan Ng" from the specification's search example. -/
def ivanNg : Student := ⟨2, "Ivan", "Ng", "Math", 80⟩

/-- Seed record "Bob Smith" from the specification's search example. -/
def bobSmith : Student := ⟨3, "Bob", "Smith", "Math", 70⟩

/-- The seeded table of the specification's search example. -/
def seedDb : Database := ⟨[annaLee, ivanNg, bobSmith], 4⟩

/-- A one-record table whose first name contains a line feed (storable:
the store checks only the grade range). -/
def dbNL : Database := ⟨[⟨1, "a\nb", "L", "C", 50⟩], 2⟩

/-! ## Theorems -/

/-- C1: pressing Update with no row selected raises an IndexError that the
handler's `except ValueError` clause does not catch, so no dialog at all is
shown (the claimed user-visible warning does not appear), though the table
is not mutated; pressing Delete with no row selected does show the warning
and performs no mutation. -/
theorem noSelection_update_no_warning (db : Database) (f l c : String)
    (g : Option Rat) :
    app_update_student db none f l c g = (db, Outcome.uncaughtException) ∧
    app_delete_student db none = (db, Outcome.warningDialog) :=
  ⟨rfl, rfl⟩

/-- C1 witness: the behaviour at the empty store. -/
theorem noSelection_update_no_warning_witness :
    app_update_student Database.empty none "A" "B" "C" (some 50) =
      (Database.empty, Outcome.uncaughtException) ∧
    app_delete_student Database.empty none =
      (Database.empty, Outcome.warningDialog) :=
  noSelection_update_no_warning Database.empty "A" "B" "C" (some 50)

/-- C2 counterexample: adding a record whose three text fields are all
empty succeeds and inserts a row — the SQLite NOT NULL constraint rejects
NULL, not the empty string — refuting the claim that an empty text field
makes the store's add fail with a ConstraintViolation and insert
nothing. -/
theorem add_empty_text_accepted :
    Database.empty.add_student "" "" "" 50 =
      Except.ok (⟨[⟨1, "", "", "", 50⟩], 2⟩, 1) :=
  rfl

/-- C2 (amended): the store's add fails with a ConstraintViolation exactly
when the grade is outside [0,100]; text fields are not checked (empty
strings are accepted), and on success a new row carrying the fresh id is
inserted while every existing row is kept. -/
theorem add_student_spec (db : Database) (f l c : String) (g : Rat) :
    (¬ (0 ≤ g ∧ g ≤ 100) →
      db.add_student f l c g = Except.error DbError.constraintViolation) ∧
    (0 ≤ g → g ≤ 100 →
      ∃ db2, db.add_student f l c g = Except.ok (db2, db.nextId) ∧
        (⟨db.nextId, f, l, c, g⟩ : Student) ∈ db2.rows ∧
        ∀ r ∈ db.rows, r ∈ db2.rows) := by
  constructor
  · intro h
    have hg : gradeOK g = false := by
      simp only [gradeOK, Bool.and_eq_false_iff, decide_eq_false_iff_not]
      tauto
    simp [Database.add_student, hg]
  · intro h0 h1
    have hg : gradeOK g = true := by
      simp only [gradeOK, Bool.and_eq_true, decide_eq_true_eq]
      exact ⟨h0, h1⟩
    refine ⟨⟨db.rows ++ [⟨db.nextId, f, l, c, g⟩], db.nextId + 1⟩, ?_, ?_, ?_⟩
    · simp [Database.add_student, hg]
    · simp
    · intro r hr
      simp [hr]

/-- C2 witness: a successful add at the empty store. -/
theorem add_student_spec_witness :
    ∃ db2, Database.empty.add_student "A" "B" "C" 50 =
        Except.ok (db2, Database.empty.nextId) ∧
      (⟨Database.empty.nextId, "A", "B", "C", 50⟩ : Student) ∈ db2.rows ∧
      ∀ r ∈ Database.empty.rows, r ∈ db2.rows :=
  (add_student_spec Database.empty "A" "B" "C" 50).2 (by decide) (by decide)

/-- C4: an add attempt through the handler with grade -1 or 101, or with
an empty text field, is rejected with an error dialog and leaves the
listed contents unchanged. -/
theorem app_add_invalid_rejected (db : Database) (f l c : String) (q : Rat)
    (h : f = "" ∨ l = "" ∨ c = "" ∨ q = -1 ∨ q = 101) :
    (app_add_student db f l c (some q)).2 = Outcome.errorDialog ∧
    ((app_add_student db f l c (some q)).1).get_all_students =
      db.get_all_students := by
  have hcond : (f == "" || l == "" || c == "" || !gradeOK q) = true := by
    rcases h with h | h | h | h | h
    · simp [h]
    · simp [h]
    · simp [h]
    · have : gradeOK q = false := by subst h; decide
      simp [this]
    · have : gradeOK q = false := by subst h; decide
      simp [this]
  simp [app_add_student, hcond]

/-- C4 witness: grade -1 at the empty store. -/
theorem app_add_invalid_rejected_witness :
    (app_add_student Database.empty "A" "B" "C" (some (-1))).2 =
      Outcome.errorDialog ∧
    ((app_add_student Database.empty "A" "B" "C" (some (-1))).1).get_all_students =
      Database.empty.get_all_students :=
  app_add_invalid_rejected Database.empty "A" "B" "C" (-1)
    (Or.inr (Or.inr (Or.inr (Or.inl rfl))))

/-- C5: an add with grade in [0,100] and non-empty text fields succeeds
(success dialog) and the new record, carrying its assigned id, appears in
the listed contents afterwards. -/
theorem app_add_valid_succeeds (db : Database) (f l c : String) (q : Rat)
    (hf : f ≠ "") (hl : l ≠ "") (hc : c ≠ "") (h0 : 0 ≤ q) (h1 : q ≤ 100) :
    (app_add_student db f l c (some q)).2 = Outcome.successDialog ∧
    (⟨db.nextId, f, l, c, q⟩ : Student) ∈
      ((app_add_student db f l c (some q)).1).get_all_students := by
  have hg : gradeOK q = true := by
    simp only [gradeOK, Bool.and_eq_true, decide_eq_true_eq]
    exact ⟨h0, h1⟩
  have hcond : (f == "" || l == "" || c == "" || !gradeOK q) = false := by
    simp [hf, hl, hc, hg]
  simp [app_add_student, hcond, Database.add_student, hg,
    Database.get_all_students, hf, hl, hc]

/-- C5 witness: adding "A" "B" "C" with grade 50 to the empty store. -/
theorem app_add_valid_succeeds_witness :
    (app_add_student Database.empty "A" "B" "C" (some 50)).2 =
      Outcome.successDialog ∧
    (⟨Database.empty.nextId, "A", "B", "C", 50⟩ : Student) ∈
      ((app_add_student Database.empty "A" "B" "C" (some 50)).1).get_all_students :=
  app_add_valid_succeeds Database.empty "A" "B" "C" 50 (by decide) (by decide)
    (by decide) (by decide) (by decide)

/-- C7: delete removes exactly the rows carrying the given id (a record
with that id no longer appears in the listing, all others are kept
unchanged), and deleting an id no stored record carries is a no-op. -/
theorem delete_student_spec (db : Database) (sid : Nat) :
    (∀ r : Student, r ∈ (db.delete_student sid).get_all_students ↔
      (r ∈ db.rows ∧ r.id ≠ sid)) ∧
    ((∀ r ∈ db.rows, r.id ≠ sid) → db.delete_student sid = db) := by
  constructor
  · intro r
    simp [Database.delete_student, Database.get_all_students,
      List.mem_filter]
  · intro h
    have : db.rows.filter (fun r => r.id != sid) = db.rows := by
      rw [List.filter_eq_self]
      intro r hr
      simpa using h r hr
    simp [Database.delete_student, this]

/-- C7 witness: deleting the absent id 5 from the seeded table changes
nothing, and no listed record carries a deleted id. -/
theorem delete_student_spec_witness :
    seedDb.delete_student 5 = seedDb :=
  (delete_student_spec seedDb 5).2 (by decide)

/-- C10: the search string is fed to SQL LIKE as a pattern fragment, not
matched literally: searching the seeded table for "%" returns all three
records although none of their names contains the character '%'. -/
theorem search_percent_wildcard :
    seedDb.search_students "%" = seedDb.rows ∧
    seedDb.rows.all (fun r =>
      !(containsLit "%" r.first_name || containsLit "%" r.last_name)) = true := by
  decide

/-- On a wildcard-free pattern followed by `%`, LIKE matching is
case-insensitive prefix matching. -/
theorem likeMatch_append_pct (s : List Char)
    (hs : ∀ ch ∈ s, ch ≠ '%' ∧ ch ≠ '_') (t : List Char) :
    likeMatch (s ++ ['%']) t = startsWithCI s t := by
  induction s generalizing t with
  | nil =>
    have hmem : ([] : List Char) ∈ t.tails := by
      simp [List.mem_tails]
    have : t.tails.any (fun u => likeMatch [] u) = true := by
      rw [List.any_eq_true]
      exact ⟨[], hmem, rfl⟩
    simp [likeMatch, startsWithCI, this]
  | cons a as ih =>
    have ha := hs a (List.mem_cons_self a as)
    have has : ∀ ch ∈ as, ch ≠ '%' ∧ ch ≠ '_' := fun ch hch =>
      hs ch (List.mem_cons_of_mem a hch)
    cases t with
    | nil => simp [likeMatch, startsWithCI, ha.1]
    | cons b bs =>
      have hu : (a == '_') = false := by
        simp [ha.2]
      simp [likeMatch, startsWithCI, ha.1, hu, ih has]

/-- On a wildcard-free search string, the `'%' + s + '%'` LIKE pattern the
code builds tests case-insensitive substring containment. -/
theorem likeMatch_pct_pct (s : List Char)
    (hs : ∀ ch ∈ s, ch ≠ '%' ∧ ch ≠ '_') (t : List Char) :
    likeMatch ('%' :: s ++ ['%']) t = containsCI s t := by
  have : ('%' :: s) ++ ['%'] = '%' :: (s ++ ['%']) := rfl
  rw [this]
  show (if '%' = '%' then t.tails.any (fun u => likeMatch (s ++ ['%']) u)
    else _) = containsCI s t
  rw [if_pos rfl]
  unfold containsCI
  congr 1
  funext u
  exact likeMatch_append_pct s hs u

/-- C3 counterexample: with the seeded table stored, search("An") returns
"Anna Lee" and "Ivan Ng", yet neither name of "Ivan Ng" contains "An"
literally — so search does not return exactly the records whose first or
last name contains the search string as a (case-sensitive) substring. -/
theorem search_literal_substring_false :
    seedDb.search_students "An" = [annaLee, ivanNg] ∧
    containsLit "An" ivanNg.first_name = false ∧
    containsLit "An" ivanNg.last_name = false := by
  decide

/-- C3 (amended): for a search string without the LIKE wildcards '%' and
'_', search returns exactly the stored records whose first or last name
contains the string case-insensitively (SQLite LIKE folds ASCII case); in
particular search("An") on the seeded table returns "Anna Lee" and
"Ivan Ng" and not "Bob Smith". -/
theorem search_students_ci (db : Database) (s : String)
    (hs : ∀ ch ∈ s.data, ch ≠ '%' ∧ ch ≠ '_') :
    db.search_students s = db.rows.filter (fun r =>
      containsCI s.data r.first_name.data ∨
      containsCI s.data r.last_name.data) := by
  unfold Database.search_students
  congr 1
  funext r
  rw [likeMatch_pct_pct s.data hs, likeMatch_pct_pct s.data hs]
  simp

/-- C3 witness: the amended statement at the seeded table with search
string "An". -/
theorem search_students_ci_witness :
    seedDb.search_students "An" = seedDb.rows.filter (fun r =>
      containsCI "An".data r.first_name.data ∨
      containsCI "An".data r.last_name.data) ∧
    seedDb.search_students "An" = [annaLee, ivanNg] :=
  ⟨search_students_ci seedDb "An" (by decide), by decide⟩

/-- C6 counterexample: the seeded table stores a record with id 1, yet
updating id 1 with grade 200 does not replace that record's fields — the
CHECK constraint makes the UPDATE fail with a constraint violation and
the table keeps its old contents — refuting the claim that whenever a
record with the id exists its fields are replaced. -/
theorem update_out_of_range_not_replaced :
    annaLee ∈ seedDb.rows ∧ annaLee.id = 1 ∧
    seedDb.update_student 1 "A" "B" "C" 200 =
      Except.error DbError.constraintViolation := by
  refine ⟨by decide, by decide, rfl⟩

/-- C6 (amended): updating an id carried by no stored record succeeds and
leaves the table unchanged; updating an id carried by a stored record
replaces exactly that record's four data fields — keeping its id and
every other record untouched, position by position — provided the new
grade lies in [0,100]; with an out-of-range grade the store raises a
constraint violation instead and replaces nothing. -/
theorem update_student_frame (db : Database) (sid : Nat) (f l c : String)
    (g : Rat) :
    ((∀ r ∈ db.rows, r.id ≠ sid) →
      db.update_student sid f l c g = Except.ok db) ∧
    ((∃ r ∈ db.rows, r.id = sid) → 0 ≤ g → g ≤ 100 →
      ∃ db2, db.update_student sid f l c g = Except.ok db2 ∧
        db2.nextId = db.nextId ∧
        db2.rows.length = db.rows.length ∧
        ∀ i (h1 : i < db.rows.length) (h2 : i < db2.rows.length),
          (db.rows[i].id = sid →
            db2.rows[i] = ⟨db.rows[i].id, f, l, c, g⟩) ∧
          (db.rows[i].id ≠ sid → db2.rows[i] = db.rows[i])) ∧
    ((∃ r ∈ db.rows, r.id = sid) → ¬ (0 ≤ g ∧ g ≤ 100) →
      db.update_student sid f l c g = Except.error DbError.constraintViolation) := by
  refine ⟨?_, ?_, ?_⟩
  · intro h
    have hany : db.rows.any (fun r => r.id == sid) = false := by
      rw [List.any_eq_false]
      intro r hr
      simpa using h r hr
    simp [Database.update_student, hany]
  · intro hex h0 h1
    have hany : db.rows.any (fun r => r.id == sid) = true := by
      rw [List.any_eq_true]
      obtain ⟨r, hr, hid⟩ := hex
      exact ⟨r, hr, by simpa using hid⟩
    have hg : gradeOK g = true := by
      simp only [gradeOK, Bool.and_eq_true, decide_eq_true_eq]
      exact ⟨h0, h1⟩
    refine ⟨⟨db.rows.map (fun r =>
        if r.id == sid then ⟨r.id, f, l, c, g⟩ else r), db.nextId⟩,
      by simp [Database.update_student, hany, hg], rfl, by simp, ?_⟩
    intro i hi1 hi2
    constructor
    · intro hid
      simp [List.getElem_map, hid]
    · intro hid
      simp only [List.getElem_map]
      rw [if_neg (by simpa using hid)]
  · intro hex hg'
    have hany : db.rows.any (fun r => r.id == sid) = true := by
      rw [List.any_eq_true]
      obtain ⟨r, hr, hid⟩ := hex
      exact ⟨r, hr, by simpa using hid⟩
    have hg : gradeOK g = false := by
      simp only [gradeOK, Bool.and_eq_false_iff, decide_eq_false_iff_not]
      tauto
    simp [Database.update_student, hany, hg]

/-- C6 witness: updating the absent id 5 on the seeded table is a no-op,
and updating id 2 with grade 60 succeeds. -/
theorem update_student_frame_witness :
    seedDb.update_student 5 "A" "B" "C" 60 = Except.ok seedDb ∧
    ∃ db2, seedDb.update_student 2 "A" "B" "C" 60 = Except.ok db2 ∧
      db2.nextId = seedDb.nextId ∧
      db2.rows.length = seedDb.rows.length ∧
      ∀ i (h1 : i < seedDb.rows.length) (h2 : i < db2.rows.length),
        (seedDb.rows[i].id = 2 →
          db2.rows[i] = ⟨seedDb.rows[i].id, "A", "B", "C", 60⟩) ∧
        (seedDb.rows[i].id ≠ 2 → db2.rows[i] = seedDb.rows[i]) :=
  ⟨(update_student_frame seedDb 5 "A" "B" "C" 60).1 (by decide),
   (update_student_frame seedDb 2 "A" "B" "C" 60).2.1 ⟨ivanNg, by decide, by decide⟩
     (by decide) (by decide)⟩

/-- The per-row replacement done by an UPDATE never changes the id
column. -/
theorem map_id_update (rows : List Student) (sid : Nat) (f l c : String)
    (g : Rat) :
    (rows.map (fun r =>
      if r.id == sid then (⟨r.id, f, l, c, g⟩ : Student) else r)).map
        Student.id = rows.map Student.id := by
  rw [List.map_map]
  apply List.map_congr_left
  intro r _
  by_cases h : r.id = sid <;> simp [h]

/-- The invariant holds for the freshly created database. -/
theorem inv_empty : Inv Database.empty := by
  constructor
  · intro r hr
    simp [Database.empty] at hr
  · simp [Database.empty]

/-- The Add handler preserves the store invariant. -/
theorem inv_app_add (db : Database) (f l c : String) (g : Option Rat)
    (h : Inv db) : Inv (app_add_student db f l c g).1 := by
  match g with
  | none => exact h
  | some q =>
    by_cases hcond : (f == "" || l == "" || c == "" || !gradeOK q) = true
    · simpa [app_add_student, hcond] using h
    · have hc' := hcond
      simp only [Bool.or_eq_true, beq_iff_eq, Bool.not_eq_true',
        not_or, Bool.not_eq_true] at hc'
      obtain ⟨⟨⟨hf, hl⟩, hcc⟩, hg⟩ := hc'
      have hg' : gradeOK q = true := by
        cases hq : gradeOK q
        · exact absurd hq hg
        · rfl
      have hgq : 0 ≤ q ∧ q ≤ 100 := by
        simpa [gradeOK, decide_eq_true_eq] using hg'
      have : (app_add_student db f l c (some q)).1 =
          ⟨db.rows ++ [⟨db.nextId, f, l, c, q⟩], db.nextId + 1⟩ := by
        simp [app_add_student, Database.add_student, hg', hf, hl, hcc]
      rw [this]
      obtain ⟨hall, hnd⟩ := h
      constructor
      · intro r hr
        rcases List.mem_append.1 hr with hr | hr
        · obtain ⟨hv, hlt⟩ := hall r hr
          exact ⟨hv, Nat.lt_succ_of_lt hlt⟩
        · have : r = ⟨db.nextId, f, l, c, q⟩ := by simpa using hr
          subst this
          exact ⟨⟨hgq.1, hgq.2, hf, hl, hcc⟩, Nat.lt_succ_self _⟩
      · rw [List.map_append]
        refine hnd.append (by simp) ?_
        intro x hx hx'
        have : x = db.nextId := by simpa using hx'
        subst this
        obtain ⟨r, hr, hrid⟩ := List.mem_map.1 hx
        have := (hall r hr).2
        omega

/-- The Update handler preserves the store invariant. -/
theorem inv_app_update (db : Database) (sel : Option Nat) (f l c : String)
    (g : Option Rat) (h : Inv db) :
    Inv (app_update_student db sel f l c g).1 := by
  match sel with
  | none => exact h
  | some sid =>
    match g with
    | none => exact h
    | some q =>
      by_cases hcond : (f == "" || l == "" || c == "" || !gradeOK q) = true
      · simpa [app_update_student, hcond] using h
      · have hc' := hcond
        simp only [Bool.or_eq_true, beq_iff_eq, Bool.not_eq_true',
          not_or, Bool.not_eq_true] at hc'
        obtain ⟨⟨⟨hf, hl⟩, hcc⟩, hg⟩ := hc'
        have hg' : gradeOK q = true := by
          cases hq : gradeOK q
          · exact absurd hq hg
          · rfl
        have hgq : 0 ≤ q ∧ q ≤ 100 := by
          simpa [gradeOK, decide_eq_true_eq] using hg'
        by_cases hany : db.rows.any (fun r => r.id == sid) = true
        · have : (app_update_student db (some sid) f l c (some q)).1 =
              ⟨db.rows.map (fun r =>
                if r.id == sid then ⟨r.id, f, l, c, q⟩ else r), db.nextId⟩ := by
            simp [app_update_student, Database.update_student, hany, hg',
              hf, hl, hcc]
          rw [this]
          obtain ⟨hall, hnd⟩ := h
          constructor
          · intro r hr
            obtain ⟨r0, hr0, hr0e⟩ := List.mem_map.1 hr
            by_cases hid : r0.id == sid
            · rw [if_pos hid] at hr0e
              subst hr0e
              exact ⟨⟨hgq.1, hgq.2, hf, hl, hcc⟩, (hall r0 hr0).2⟩
            · rw [if_neg hid] at hr0e
              subst hr0e
              exact hall r0 hr0
          · rw [map_id_update]
            exact hnd
        · have : (app_update_student db (some sid) f l c (some q)).1 = db := by
            have hany' : db.rows.any (fun r => r.id == sid) = false := by
              cases hq : db.rows.any (fun r => r.id == sid)
              · rfl
              · exact absurd hq hany
            simp [app_update_student, Database.update_student, hany', hg',
              hf, hl, hcc]
          rw [this]
          exact h

/-- The Delete handler preserves the store invariant. -/
theorem inv_app_delete (db : Database) (sel : Option Nat) (h : Inv db) :
    Inv (app_delete_student db sel).1 := by
  match sel with
  | none => exact h
  | some sid =>
    obtain ⟨hall, hnd⟩ := h
    constructor
    · intro r hr
      have : r ∈ db.rows := List.mem_of_mem_filter hr
      exact hall r this
    · show ((db.rows.filter (fun r => r.id != sid)).map Student.id).Nodup
      exact hnd.sublist (List.Sublist.map Student.id (List.filter_sublist _))

/-- C9: in every store state reachable by the application's operations,
every stored record has a grade in [0,100] and non-empty first name, last
name and course, the ids are pairwise distinct and below the fresh-id
counter; moreover a successful store update never changes the id column. -/
theorem reachable_invariant :
    (∀ db : Database, Reachable db → Inv db) ∧
    (∀ (db : Database) (sid : Nat) (f l c : String) (g : Rat)
      (db2 : Database), db.update_student sid f l c g = Except.ok db2 →
      db2.rows.map Student.id = db.rows.map Student.id) := by
  constructor
  · intro db h
    induction h with
    | init => exact inv_empty
    | add db f l c g _ ih => exact inv_app_add db f l c g ih
    | update db sel f l c g _ ih => exact inv_app_update db sel f l c g ih
    | delete db sel _ ih => exact inv_app_delete db sel ih
    | search db s _ ih => exact ih
    | exportOp db _ ih => exact ih
  · intro db sid f l c g db2 h
    unfold Database.update_student at h
    by_cases hany : db.rows.any (fun r => r.id == sid) = true
    · rw [if_pos hany] at h
      by_cases hg : gradeOK g = true
      · rw [if_pos hg] at h
        have : db2 = ⟨db.rows.map (fun r =>
            if r.id == sid then ⟨r.id, f, l, c, g⟩ else r), db.nextId⟩ := by
          cases h
          rfl
        rw [this]
        exact map_id_update db.rows sid f l c g
      · rw [if_neg hg] at h
        cases h
    · rw [if_neg hany] at h
      cases h
      rfl

/-- C9 witness: the invariant at the freshly created store, and an id-set
preserving update on the seeded table. -/
theorem reachable_invariant_witness :
    Inv Database.empty ∧
    (⟨[annaLee, ⟨2, "A", "B", "C", 60⟩, bobSmith], 4⟩ : Database).rows.map
        Student.id = seedDb.rows.map Student.id :=
  ⟨reachable_invariant.1 Database.empty Reachable.init,
   reachable_invariant.2 seedDb 2 "A" "B" "C" 60 _ rfl⟩

/-- Reading a run of ordinary characters in base mode appends them to the current field. -/
theorem foldl_base_ordinary (cs : List Char) :
    ∀ (rows : List (List String)) (fields : List String) (cur : List Char),
    (∀ c ∈ cs, c ≠ '"' ∧ c ≠ ',' ∧ c ≠ '\n' ∧ c ≠ '\r') →
    cs.foldl csvStep ⟨rows, fields, cur, .base⟩ = ⟨rows, fields, cur ++ cs, .base⟩ := by
  induction cs with
  | nil => intro rows fields cur _; simp
  | cons c cs ih =>
    intro rows fields cur h
    have hc := h c (List.mem_cons_self c cs)
    have hstep : csvStep ⟨rows, fields, cur, .base⟩ c = ⟨rows, fields, cur ++ [c], .base⟩ := by
      simp [csvStep, hc.1, hc.2.1, hc.2.2.1, hc.2.2.2]
    rw [List.foldl_cons, hstep, ih rows fields (cur ++ [c])
      (fun d hd => h d (List.mem_cons_of_mem c hd))]
    simp

/-- Reading the quote-doubled encoding of a text inside quotes appends the original text to the current field. -/
theorem foldl_quoted_esc (cs : List Char) :
    ∀ (rows : List (List String)) (fields : List String) (cur : List Char),
    (csvQuoteEsc cs).foldl csvStep ⟨rows, fields, cur, .quoted⟩ =
      ⟨rows, fields, cur ++ cs, .quoted⟩ := by
  induction cs with
  | nil => intro rows fields cur; simp [csvQuoteEsc]
  | cons c cs ih =>
    intro rows fields cur
    by_cases hc : c = '"'
    · subst hc
      have h1 : csvStep ⟨rows, fields, cur, .quoted⟩ '"' = ⟨rows, fields, cur, .postq⟩ := by
        simp [csvStep]
      have h2 : csvStep ⟨rows, fields, cur, .postq⟩ '"' =
          ⟨rows, fields, cur ++ ['"'], .quoted⟩ := by
        simp [csvStep]
      have he : csvQuoteEsc ('"' :: cs) = '"' :: '"' :: csvQuoteEsc cs := by
        simp [csvQuoteEsc]
      rw [he, List.foldl_cons, h1, List.foldl_cons, h2, ih]
      simp
    · have h1 : csvStep ⟨rows, fields, cur, .quoted⟩ c =
          ⟨rows, fields, cur ++ [c], .quoted⟩ := by
        simp [csvStep, hc]
      have he : csvQuoteEsc (c :: cs) = c :: csvQuoteEsc cs := by
        simp [csvQuoteEsc, hc]
      rw [he, List.foldl_cons, h1, ih]
      simp

/-- A field the writer leaves unquoted contains none of the four special characters. -/
theorem needsQuote_false_chars (f : String) (h : needsQuote f = false) :
    ∀ c ∈ f.data, c ≠ '"' ∧ c ≠ ',' ∧ c ≠ '\n' ∧ c ≠ '\r' := by
  simp only [needsQuote, List.any_eq_false, Bool.or_eq_true, beq_iff_eq,
    not_or] at h
  intro c hc
  have := h c hc
  tauto

/-- Reading one serialized field followed by a comma finishes exactly that field. -/
theorem foldl_field_comma (f : String) (rows : List (List String))
    (fields : List String) :
    ((csvField f) ++ [',']).foldl csvStep ⟨rows, fields, [], .base⟩ =
      ⟨rows, fields ++ [f], [], .base⟩ := by
  rw [List.foldl_append]
  by_cases hq : needsQuote f = true
  · have : (csvField f).foldl csvStep ⟨rows, fields, [], .base⟩ =
        ⟨rows, fields, f.data, .postq⟩ := by
      unfold csvField
      rw [if_pos hq]
      have h0 : csvStep ⟨rows, fields, [], .base⟩ '"' = ⟨rows, fields, [], .quoted⟩ := by
        simp [csvStep]
      rw [List.foldl_cons, h0, List.foldl_append, foldl_quoted_esc]
      simp [csvStep]
    rw [this]
    simp [csvStep]
  · have hq' : needsQuote f = false := by
      cases h : needsQuote f
      · rfl
      · exact absurd h hq
    have : (csvField f).foldl csvStep ⟨rows, fields, [], .base⟩ =
        ⟨rows, fields, f.data, .base⟩ := by
      unfold csvField
      rw [if_neg hq]
      have := foldl_base_ordinary f.data rows fields [] (needsQuote_false_chars f hq')
      simpa using this
    rw [this]
    simp [csvStep]

/-- Reading one serialized field followed by the row terminator finishes the field and the row. -/
theorem foldl_field_crlf (f : String) (rows : List (List String))
    (fields : List String) :
    ((csvField f) ++ ['\r', '\n']).foldl csvStep ⟨rows, fields, [], .base⟩ =
      ⟨rows ++ [fields ++ [f]], [], [], .base⟩ := by
  rw [List.foldl_append]
  by_cases hq : needsQuote f = true
  · have : (csvField f).foldl csvStep ⟨rows, fields, [], .base⟩ =
        ⟨rows, fields, f.data, .postq⟩ := by
      unfold csvField
      rw [if_pos hq]
      have h0 : csvStep ⟨rows, fields, [], .base⟩ '"' = ⟨rows, fields, [], .quoted⟩ := by
        simp [csvStep]
      rw [List.foldl_cons, h0, List.foldl_append, foldl_quoted_esc]
      simp [csvStep]
    rw [this]
    simp [csvStep]
  · have hq' : needsQuote f = false := by
      cases h : needsQuote f
      · rfl
      · exact absurd h hq
    have : (csvField f).foldl csvStep ⟨rows, fields, [], .base⟩ =
        ⟨rows, fields, f.data, .base⟩ := by
      unfold csvField
      rw [if_neg hq]
      have := foldl_base_ordinary f.data rows fields [] (needsQuote_false_chars f hq')
      simpa using this
    rw [this]
    simp [csvStep]

/-- Reading one serialized row appends exactly its fields as one parsed row. -/
theorem foldl_row (fs : List String) (hfs : fs ≠ []) :
    ∀ (rows : List (List String)) (fields : List String),
    (csvRowChars fs).foldl csvStep ⟨rows, fields, [], .base⟩ =
      ⟨rows ++ [fields ++ fs], [], [], .base⟩ := by
  induction fs with
  | nil => exact absurd rfl hfs
  | cons f fs ih =>
    intro rows fields
    cases fs with
    | nil =>
      show ((csvField f) ++ ['\r', '\n']).foldl csvStep _ = _
      rw [foldl_field_crlf]
    | cons g gs =>
      have hsplit : csvRowChars (f :: g :: gs) =
          (csvField f ++ [',']) ++ csvRowChars (g :: gs) := by
        show (csvField f ++ ',' :: csvRowBody (g :: gs)) ++ ['\r', '\n'] = _
        simp [csvRowChars]
      rw [hsplit, List.foldl_append, foldl_field_comma,
        ih (List.cons_ne_nil g gs) rows (fields ++ [f])]
      simp

/-- Reading a sequence of serialized rows appends exactly those rows. -/
theorem foldl_rows (rws : List (List String)) (h : ∀ r ∈ rws, r ≠ []) :
    ∀ (rows0 : List (List String)),
    ((rws.map csvRowChars).flatten).foldl csvStep ⟨rows0, [], [], .base⟩ =
      ⟨rows0 ++ rws, [], [], .base⟩ := by
  induction rws with
  | nil => intro rows0; simp
  | cons r rws ih =>
    intro rows0
    have hr := h r (List.mem_cons_self r rws)
    rw [List.map_cons, List.flatten_cons, List.foldl_append,
      foldl_row r hr rows0 [], ih (fun x hx => h x (List.mem_cons_of_mem r hx))]
    simp

/-- The CSV writer/reader round trip: parsing the serialized form of any rows of (arbitrary) field strings recovers them exactly. -/
theorem csvParse_csvWrite (rws : List (List String))
    (h : ∀ r ∈ rws, r ≠ []) : csvParse (csvWrite rws) = rws := by
  have hst : (csvWrite rws).data.foldl csvStep ⟨[], [], [], .base⟩ =
      ⟨[] ++ rws, [], [], .base⟩ := foldl_rows rws h []
  simp only [csvParse, hst]
  simp

/-- Quote doubling introduces no characters beyond the original ones and the quote. -/
theorem mem_csvQuoteEsc (c : Char) (cs : List Char) (h : c ∈ csvQuoteEsc cs) :
    c ∈ cs ∨ c = '"' := by
  induction cs with
  | nil => simp [csvQuoteEsc] at h
  | cons d ds ih =>
    by_cases hd : d = '"'
    · subst hd
      rw [show csvQuoteEsc ('"' :: ds) = '"' :: '"' :: csvQuoteEsc ds from by
        simp [csvQuoteEsc]] at h
      rcases List.mem_cons.1 h with h | h
      · exact Or.inr h
      · rcases List.mem_cons.1 h with h | h
        · exact Or.inr h
        · rcases ih h with h | h
          · exact Or.inl (List.mem_cons_of_mem _ h)
          · exact Or.inr h
    · rw [show csvQuoteEsc (d :: ds) = d :: csvQuoteEsc ds from by
        simp [csvQuoteEsc, hd]] at h
      rcases List.mem_cons.1 h with h | h
      · exact Or.inl (by simp [h])
      · rcases ih h with h | h
        · exact Or.inl (List.mem_cons_of_mem _ h)
        · exact Or.inr h

/-- A serialized field of a line-feed-free value contains no line feed. -/
theorem count_nl_csvField (f : String) (h : '\n' ∉ f.data) :
    (csvField f).count '\n' = 0 := by
  rw [List.count_eq_zero]
  unfold csvField
  by_cases hq : needsQuote f = true
  · rw [if_pos hq]
    intro hmem
    simp only [List.mem_cons, List.mem_append, List.mem_singleton] at hmem
    rcases hmem with hmem | hmem | hmem
    · exact absurd hmem.symm (by decide)
    · rcases mem_csvQuoteEsc _ _ hmem with hm | hm
      · exact h hm
      · exact absurd hm (by decide)
    · exact absurd hmem (by decide)
  · rw [if_neg hq]
    exact h

/-- The comma-joined fields of a row of line-feed-free values contain no line feed. -/
theorem count_nl_csvRowBody (fs : List String)
    (h : ∀ f ∈ fs, '\n' ∉ f.data) : (csvRowBody fs).count '\n' = 0 := by
  induction fs with
  | nil => simp [csvRowBody]
  | cons f fs ih =>
    cases fs with
    | nil =>
      show (csvField f).count '\n' = 0
      exact count_nl_csvField f (h f (List.mem_cons_self f []))
    | cons g gs =>
      show (csvField f ++ ',' :: csvRowBody (g :: gs)).count '\n' = 0
      rw [List.count_append]
      have h1 := count_nl_csvField f (h f (List.mem_cons_self f _))
      have h2 := ih (fun x hx => h x (List.mem_cons_of_mem f hx))
      rw [h1]
      simp only [List.count_cons, h2]
      simp

/-- A serialized row of line-feed-free values contains exactly one line feed, the terminator's. -/
theorem count_nl_csvRowChars (fs : List String)
    (h : ∀ f ∈ fs, '\n' ∉ f.data) : (csvRowChars fs).count '\n' = 1 := by
  unfold csvRowChars
  rw [List.count_append, count_nl_csvRowBody fs h]
  decide

/-- With no line feed in any field value, the export of N records contains exactly N+1 line feeds. -/
theorem export_line_count (db : Database)
    (h : ∀ r ∈ db.rows, ∀ f ∈ recordFields r, '\n' ∉ f.data) :
    lineCount db.export_to_csv = db.rows.length + 1 := by
  show (((csvHeader :: db.rows.map recordFields).map csvRowChars).flatten).count '\n' =
    db.rows.length + 1
  rw [List.count_flatten, List.map_cons, List.map_cons, List.sum_cons,
    List.map_map, List.map_map]
  have hhd : (csvRowChars csvHeader).count '\n' = 1 := by decide
  have hrest : db.rows.map ((List.count '\n' ∘ csvRowChars) ∘ recordFields) =
      db.rows.map (fun _ => 1) := by
    apply List.map_congr_left
    intro r hr
    exact count_nl_csvRowChars (recordFields r) (h r hr)
  rw [hhd, hrest]
  simp [Nat.add_comm]

/-- C8 (amended): parsing the export back always recovers the header
`ID,First Name,Last Name,Course,Grade` followed by the field values of
every record in order (standard comma/quote escaping round-trips); and
provided no field value contains a line-break character, the output has
exactly N+1 lines for N records. -/
theorem export_to_csv_spec (db : Database) :
    csvParse db.export_to_csv = csvHeader :: db.rows.map recordFields ∧
    ((∀ r ∈ db.rows, ∀ f ∈ recordFields r, '\n' ∉ f.data) →
      lineCount db.export_to_csv = db.rows.length + 1) := by
  constructor
  · apply csvParse_csvWrite
    intro r hr
    rcases List.mem_cons.1 hr with h | h
    · subst h; decide
    · obtain ⟨x, _, hxe⟩ := List.mem_map.1 h
      rw [← hxe]
      simp [recordFields]
  · exact export_line_count db

/-- C8 witness: the export of the seeded table parses back to header plus its three records and has exactly 4 lines. -/
theorem export_to_csv_spec_witness :
    csvParse seedDb.export_to_csv = csvHeader :: seedDb.rows.map recordFields ∧
    lineCount seedDb.export_to_csv = seedDb.rows.length + 1 :=
  ⟨(export_to_csv_spec seedDb).1, (export_to_csv_spec seedDb).2 (by decide)⟩

/-- C8 counterexample: a stored table whose single record's first name
contains a line feed is exported as 3 lines, not the claimed N+1 = 2 —
the quoted line break spans the row over two physical lines. -/
theorem export_newline_extra_line :
    lineCount dbNL.export_to_csv = 3 ∧ dbNL.rows.length + 1 = 2 := by
  constructor
  · decide
  · rfl

end StudentMgmt
